import Mathlib

/-!
# Ticket triage pipeline — verification of the classification core

Shallow embedding of the repository's classification pipeline
(`app/classifier.py`) and persistence gateway (`app/firebase_client.py`).

Python strings are modelled as Lean `String` (a wrapper around `List Char`);
Python `str.lower` is `Char.toLower` mapped over the characters, `str.strip`
drops leading/trailing whitespace, and the substring operator `in` is an
explicit prefix scan.  Python `Optional` values are `Option`; Python truthiness
of an optional string (`None` and `""` are falsy) is made explicit at every
use site.  Dictionaries that cross the persistence boundary are association
lists so that the copy made by `{**classification}` and the in-place mutation
performed by `_persist_to_firestore` are both visible in the model.
-/

namespace TicketTriage

/-- Python `str.lower` (ASCII-faithful): lower-case every character. -/
def strLower (s : String) : String := ⟨s.data.map Char.toLower⟩

/-- Characters stripped by Python `str.strip()` (space, tab, CR, LF). -/
def trimLeft (l : List Char) : List Char := l.dropWhile Char.isWhitespace

/-- Python `str.strip()`: drop whitespace from both ends. -/
def pyStrip (s : String) : String :=
  ⟨((trimLeft s.data).reverse.dropWhile Char.isWhitespace).reverse⟩

/-- Substring test `needle.isPrefixOf haystack` lifted over each suffix. -/
def listContains (needle : List Char) : List Char → Bool
  | [] => needle.isEmpty
  | c :: t => needle.isPrefixOf (c :: t) || listContains needle t

/-- Python `needle in haystack` for strings (substring containment). -/
def strContains (haystack needle : String) : Bool :=
  listContains needle.data haystack.data

/-- Python `text[:n]`: the first `n` characters. -/
def strTake (s : String) (n : Nat) : String := ⟨s.data.take n⟩

/-- Python truthiness of an optional string: `None` and `""` are falsy.
Keeps the truthy payload. -/
def truthyOpt (o : Option String) : Option String :=
  match o with
  | some s => if s = "" then none else some s
  | none => none

/-- Python `a or b` on optional strings. -/
def pyOr2 (a b : Option String) : Option String :=
  match truthyOpt a with
  | some s => some s
  | none => truthyOpt b

/-- Python `a or d` where `d` is the final (string) default. -/
def pyOrD (a : Option String) (d : String) : String :=
  match truthyOpt a with
  | some s => s
  | none => d

/-!
## Severity helpers (`app/classifier.py`, `_normalize_severity` / `_infer_severity`)
-/

/-- The `mapping` dict of `_normalize_severity`, as an ordered association
list (`app/classifier.py` lines 112–119). -/
def severityMapping : List (String × String) :=
  [("critical", "Critical"), ("blocker", "Critical"),
   ("urgent", "High"), ("high", "High"),
   ("medium", "Medium"), ("low", "Low")]

/-- Python `mapping.get(key, default)` over an association list. -/
def lookupDefault (m : List (String × String)) (k d : String) : String :=
  match m with
  | [] => d
  | (k', v) :: t => if k = k' then v else lookupDefault t k d

/-- Model of `_normalize_severity` (`app/classifier.py` lines 106–121): `None`/empty
input is falsy and yields `None`; otherwise the value is lower-cased,
stripped, and looked up in the synonym mapping with default `"Medium"`. -/
def normalizeSeverity (value : Option String) : Option String :=
  match value with
  | none => none
  | some v =>
    if v = "" then none
    else some (lookupDefault severityMapping (pyStrip (strLower v)) "Medium")

/-- Model of `_infer_severity` (`app/classifier.py` lines 124–131): keyword fallback. -/
def inferSeverity (text : String) : String :=
  let lower := strLower text
  if ["crash", "down", "failed", "cannot", "error", "not working",
      "system is unavailable"].any (fun w => strContains lower w) then "High"
  else if strContains lower "slow" || strContains lower "request"
      || strContains lower "question" then "Low"
  else "Medium"

/-- Every output of the severity synonym lookup is one of the four levels. -/
theorem lookupDefault_severity_mem (k : String) :
    lookupDefault severityMapping k "Medium" = "Critical"
    ∨ lookupDefault severityMapping k "Medium" = "High"
    ∨ lookupDefault severityMapping k "Medium" = "Medium"
    ∨ lookupDefault severityMapping k "Medium" = "Low" := by
  simp only [severityMapping, lookupDefault]
  split_ifs <;> simp

/-- The four canonical levels are fixed points of `normalizeSeverity`. -/
theorem normalizeSeverity_fixed (s : String)
    (h : s = "Critical" ∨ s = "High" ∨ s = "Medium" ∨ s = "Low") :
    normalizeSeverity (some s) = some s := by
  rcases h with h | h | h | h <;> subst h <;> decide

/-!
## Knowledge base model and matchers
-/

/-- A knowledge-base record (`data/knowledge_base.json` entry; spec §3).
Entries are JSON objects with these five fields; a missing/empty field is
modelled as the empty string / empty list (matching `entry.get(...)`
defaults in the Python code). -/
structure KBEntry where
  id : String
  title : String
  category : String
  symptoms : List String
  recommended_action : String
deriving DecidableEq, Repr

/-- The loop body of `_get_kb_entry_by_id` (`app/classifier.py` lines 69–72):
first entry whose stripped, lower-cased id equals the stripped, lower-cased
lookup key. -/
def findById : List KBEntry → String → Option KBEntry
  | [], _ => none
  | e :: rest, normalized =>
    if strLower (pyStrip e.id) = strLower normalized then some e
    else findById rest normalized

/-- Model of `_get_kb_entry_by_id` (`app/classifier.py` lines 65–72): falsy
(`None`/empty) ids yield `None`; otherwise the id is stripped and matched
case-insensitively against the entries in load order. -/
def getKbEntryById (kb : List KBEntry) (issueId : Option String) : Option KBEntry :=
  match issueId with
  | none => none
  | some s => if s = "" then none else findById kb (pyStrip s)

/-- One entry's match score in `_find_kb_entry`: the number of its symptom
phrases whose lower-casing occurs in the (already lower-cased) text. -/
def kbScore (loweredText : String) (e : KBEntry) : Nat :=
  e.symptoms.countP (fun sym => strContains loweredText (strLower sym))

/-- The accumulator loop of `_find_kb_entry` (`app/classifier.py` lines
84–93): keep the entry whose score strictly exceeds the best seen so far. -/
def bestAux (t : String) : List KBEntry → Option KBEntry → Nat → Option KBEntry × Nat
  | [], best, bestScore => (best, bestScore)
  | e :: rest, best, bestScore =>
    if kbScore t e > bestScore then bestAux t rest (some e) (kbScore t e)
    else bestAux t rest best bestScore

/-- Model of `_find_kb_entry` (`app/classifier.py` lines 78–100): lower-case the text,
scan all entries keeping the strictly-highest scorer, return it only when its
score is positive. -/
def findKbEntry (kb : List KBEntry) (text : String) : Option KBEntry :=
  let t := strLower text
  let r := bestAux t kb none 0
  if r.2 > 0 then r.1 else none

/-!
## The language-model gateway result and the merger
-/

/-- The fields of the parsed LLM reply that the merger reads
(`llm_result.get(...)` in `classify_ticket`).  The reply is a Python dict;
`none` at a field models a missing key.  An *empty* reply dict (the gateway's
failure value `{}`) is modelled as `Option LLMResult = none` at the use
sites, so Python's `if llm_result:` truthiness is `Option.isSome`. -/
structure LLMResult where
  summary : Option String
  category : Option String
  severity : Option String
  kb_issue_id : Option String
  kb_issue_title : Option String
  next_step : Option String
deriving DecidableEq, Repr

/-- Python `str.split()` (split on whitespace runs, dropping empties),
accumulator-style; the accumulator holds the current word reversed. -/
def splitWsAux : List Char → List Char → List (List Char)
  | acc, [] => if acc = [] then [] else [acc.reverse]
  | acc, c :: t =>
    if c.isWhitespace then
      (if acc = [] then splitWsAux [] t else acc.reverse :: splitWsAux [] t)
    else splitWsAux (c :: acc) t

/-- Python `s.split()` as a list of words. -/
def pySplit (s : String) : List String := (splitWsAux [] s.data).map fun l => ⟨l⟩

/-- Model of `_correct_summary` (`app/classifier.py` lines 162–167): falsy input gives
`None`; otherwise whitespace runs are collapsed to single spaces and the
result is stripped; an all-whitespace summary collapses to `None`. -/
def correctSummary (summary : Option String) : Option String :=
  match summary with
  | none => none
  | some s =>
    if s = "" then none
    else
      let stripped := pyStrip (String.intercalate " " (pySplit s))
      if stripped = "" then none else some stripped

/-- The KB-entry selection of `classify_ticket` (`app/classifier.py` lines
271–273): prefer the entry named by the LLM's `kb_issue_id`, else fall back
to the keyword matcher on the raw text. -/
def selectKb (kb : List KBEntry) (llm : Option LLMResult) (text : String) :
    Option KBEntry :=
  match getKbEntryById kb (llm.bind LLMResult.kb_issue_id) with
  | some e => some e
  | none => findKbEntry kb text

/-- The result record built by `classify_ticket`
(`app/classifier.py` lines 297–308). -/
structure ClassificationResult where
  client_id : String
  summary : String
  full_summary : Option String
  full_text : String
  category : String
  severity : String
  kb_match : Option String
  next_step : String
  analysis_source : String
  llm_raw : Option LLMResult
deriving DecidableEq, Repr

/-- Model of `classify_ticket` (`app/classifier.py` lines 264–311), up to the point
where the result dict is built.  The network call `_llm_classification` is
the `llm` parameter (its contract: an empty dict — here `none` — on any
failure); `KB` is the loaded knowledge base.  Persistence (line 310) does
not change the returned record and is modelled separately. -/
def classifyTicket (kb : List KBEntry) (llm : Option LLMResult) (text : String)
    (clientId : Option String) : ClassificationResult :=
  let kbSel := selectKb kb llm text
  let kb_id := kbSel.map KBEntry.id
  let kb_category := kbSel.map KBEntry.category
  let kb_title := kbSel.map KBEntry.title
  let kb_action := kbSel.map KBEntry.recommended_action
  let llm_summary := llm.bind LLMResult.summary
  let corrected_summary :=
    match truthyOpt llm_summary with
    | some s => correctSummary (some s)
    | none => none
  { client_id := pyOrD clientId "unknown-client"
    summary := pyOrD (pyOr2 corrected_summary kb_title) (strTake text 80)
    full_summary := corrected_summary
    full_text := text
    category := pyOrD (pyOr2 (llm.bind LLMResult.category) kb_category) "General"
    severity := pyOrD (llm.bind fun r => normalizeSeverity r.severity)
      (inferSeverity text)
    kb_match := kb_id
    next_step := pyOrD (pyOr2 (llm.bind LLMResult.next_step) kb_action)
      "Investigate and escalate to support."
    analysis_source :=
      if llm.isSome ∧ (truthyOpt kb_id).isSome then "Groq+KB"
      else if llm.isSome then "Groq" else "Heuristics"
    llm_raw := llm }

/-!
## Helper lemmas
-/

/-- A truthy optional string is non-empty. -/
theorem truthyOpt_some_ne {a : Option String} {s : String}
    (h : truthyOpt a = some s) : s ≠ "" := by
  cases a with
  | none => simp [truthyOpt] at h
  | some v =>
    simp only [truthyOpt] at h
    split at h
    · exact absurd h (by simp)
    · next hv => cases h; exact hv

/-- Applying `pyOrD` with a non-empty default gives a non-empty string. -/
theorem pyOrD_ne_empty (a : Option String) {d : String} (hd : d ≠ "") :
    pyOrD a d ≠ "" := by
  unfold pyOrD
  cases h : truthyOpt a with
  | none => exact hd
  | some s => exact truthyOpt_some_ne h

/-- If `normalizeSeverity` produces a value it is one of the four levels. -/
theorem normalizeSeverity_mem {v : Option String} {o : String}
    (h : normalizeSeverity v = some o) :
    o = "Critical" ∨ o = "High" ∨ o = "Medium" ∨ o = "Low" := by
  cases v with
  | none => simp [normalizeSeverity] at h
  | some s =>
    simp only [normalizeSeverity] at h
    split at h
    · exact absurd h (by simp)
    · cases h; exact lookupDefault_severity_mem _

/-- A truthy optional string is `some` of its payload underneath. -/
theorem truthyOpt_eq_some {a : Option String} {s : String}
    (h : truthyOpt a = some s) : a = some s := by
  cases a with
  | none => simp [truthyOpt] at h
  | some v =>
    simp only [truthyOpt] at h
    split at h
    · exact absurd h (by simp)
    · cases h; rfl

/-- Evaluating `inferSeverity` always yields one of its three literals. -/
theorem inferSeverity_mem (t : String) :
    inferSeverity t = "High" ∨ inferSeverity t = "Low"
    ∨ inferSeverity t = "Medium" := by
  simp only [inferSeverity]
  split_ifs <;> simp

/-- The severity field of the result, unfolded. -/
theorem classify_severity_eq (kb : List KBEntry) (llm : Option LLMResult)
    (text : String) (cid : Option String) :
    (classifyTicket kb llm text cid).severity =
      pyOrD (llm.bind fun r => normalizeSeverity r.severity)
        (inferSeverity text) := rfl

/-- The merger's severity is always one of the four canonical levels. -/
theorem classify_severity_mem (kb : List KBEntry) (llm : Option LLMResult)
    (text : String) (cid : Option String) :
    (classifyTicket kb llm text cid).severity = "Critical"
    ∨ (classifyTicket kb llm text cid).severity = "High"
    ∨ (classifyTicket kb llm text cid).severity = "Medium"
    ∨ (classifyTicket kb llm text cid).severity = "Low" := by
  rw [classify_severity_eq]
  cases h : truthyOpt (llm.bind fun r => normalizeSeverity r.severity) with
  | none =>
    simp only [pyOrD, h]
    rcases inferSeverity_mem text with h' | h' | h' <;> simp [h']
  | some s =>
    simp only [pyOrD, h]
    have hb := truthyOpt_eq_some h
    cases llm with
    | none => simp at hb
    | some r => exact normalizeSeverity_mem (by simpa using hb)

/-- A non-empty string keeps a non-empty 80-character prefix. -/
theorem strTake_ne_empty {text : String} (h : text ≠ "") :
    strTake text 80 ≠ "" := by
  intro hc
  apply h
  unfold strTake at hc
  have hdata : (text.data.take 80) = ([] : List Char) := congrArg String.data hc
  rcases List.take_eq_nil_iff.mp hdata with h80 | hnil
  · exact absurd h80 (by decide)
  · cases text with
    | mk d => cases hnil; rfl

/-!
## Claim C1 — totality and non-emptiness of the classification result
-/

/-- C1 (counterexample): on the empty ticket text, with the LLM gateway
failing (empty reply) and an empty knowledge base, the result's `summary`
field is the empty string — so the claim's quantification over *all* strings
including the empty one fails. -/
theorem claim1_counterexample :
    (classifyTicket [] none "" none).summary = ""
    ∧ (classifyTicket [] none "" none).category = "General"
    ∧ (classifyTicket [] none "" none).severity = "Medium" := by
  decide

/-- C1 (amended): for every knowledge base, LLM reply, client id, and every
*non-empty* ticket text, `classify_ticket` returns a result whose
`category`, `severity`, `next_step` and `summary` are non-empty and whose
`severity` is one of Critical/High/Medium/Low. -/
theorem claim1_amended (kb : List KBEntry) (llm : Option LLMResult)
    (text : String) (cid : Option String) (h : text ≠ "") :
    (classifyTicket kb llm text cid).category ≠ ""
    ∧ (classifyTicket kb llm text cid).severity ≠ ""
    ∧ (classifyTicket kb llm text cid).next_step ≠ ""
    ∧ (classifyTicket kb llm text cid).summary ≠ ""
    ∧ ((classifyTicket kb llm text cid).severity = "Critical"
       ∨ (classifyTicket kb llm text cid).severity = "High"
       ∨ (classifyTicket kb llm text cid).severity = "Medium"
       ∨ (classifyTicket kb llm text cid).severity = "Low") := by
  refine ⟨?_, ?_, ?_, ?_, classify_severity_mem kb llm text cid⟩
  · exact pyOrD_ne_empty _ (by decide)
  · rcases classify_severity_mem kb llm text cid with h' | h' | h' | h' <;>
      rw [h'] <;> decide
  · exact pyOrD_ne_empty _ (by decide)
  · exact pyOrD_ne_empty _ (strTake_ne_empty h)

/-- Witness for C1 (amended) at the concrete ticket `"help"`. -/
theorem claim1_amended_witness :
    ("help" : String) ≠ ""
    ∧ ((classifyTicket [] none "help" none).category ≠ ""
       ∧ (classifyTicket [] none "help" none).severity ≠ ""
       ∧ (classifyTicket [] none "help" none).next_step ≠ ""
       ∧ (classifyTicket [] none "help" none).summary ≠ ""
       ∧ ((classifyTicket [] none "help" none).severity = "Critical"
          ∨ (classifyTicket [] none "help" none).severity = "High"
          ∨ (classifyTicket [] none "help" none).severity = "Medium"
          ∨ (classifyTicket [] none "help" none).severity = "Low")) :=
  ⟨by decide, claim1_amended [] none "help" none (by decide)⟩

/-!
## Claims C6 and C7 — severity normalization
-/

/-- C6 (counterexample): a whitespace-only severity is truthy in the code's
pre-trim emptiness check, so after trimming it falls into the unrecognized
branch and maps to `Medium` — it does *not* yield absent as the claim
demands. -/
theorem claim6_counterexample :
    normalizeSeverity (some " ") = some "Medium"
    ∧ normalizeSeverity (some " ") ≠ none := by
  decide

/-- C6 (amended): normalization yields absent exactly on an absent or empty
input (the emptiness test happens *before* trimming); every other input is
trimmed and lower-cased, synonyms map to their level, and any other value —
including whitespace-only strings, which trim to the unrecognized key `""` —
maps to `Medium`. -/
theorem claim6_amended :
    normalizeSeverity none = none
    ∧ normalizeSeverity (some "") = none
    ∧ (∀ s : String, s ≠ "" →
        normalizeSeverity (some s) =
          some (if pyStrip (strLower s) = "critical"
                   ∨ pyStrip (strLower s) = "blocker" then "Critical"
                else if pyStrip (strLower s) = "urgent"
                   ∨ pyStrip (strLower s) = "high" then "High"
                else if pyStrip (strLower s) = "medium" then "Medium"
                else if pyStrip (strLower s) = "low" then "Low"
                else "Medium")) := by
  refine ⟨rfl, by decide, ?_⟩
  intro s hs
  simp only [normalizeSeverity, if_neg hs, severityMapping, lookupDefault]
  split_ifs <;> simp_all

/-- Witness for C6 (amended) at the whitespace-only input `" "`. -/
theorem claim6_amended_witness :
    (" " : String) ≠ "" ∧ normalizeSeverity (some " ") = some "Medium" := by
  refine ⟨by decide, ?_⟩
  have h := claim6_amended.2.2 " " (by decide)
  rw [h]; decide

/-- C7: severity normalization is idempotent (absent propagates), and the
empty string normalizes to absent. -/
theorem claim7_idempotent :
    (∀ s : String,
      normalizeSeverity (normalizeSeverity (some s)) = normalizeSeverity (some s))
    ∧ normalizeSeverity (some "") = none
    ∧ normalizeSeverity none = none := by
  refine ⟨?_, by decide, rfl⟩
  intro s
  by_cases hs : s = ""
  · subst hs; decide
  · cases h : normalizeSeverity (some s) with
    | none =>
      simp only [normalizeSeverity] at h
      split at h
      · next h' => exact absurd h' hs
      · exact absurd h (by simp)
    | some o => exact normalizeSeverity_fixed o (normalizeSeverity_mem h)

/-!
## Claim C10 — empty client id gets the placeholder
-/

/-- C10: an empty-string client id is falsy in `client_id or
"unknown-client"`, so the placeholder is substituted, exactly as for a
missing client id. -/
theorem claim10_empty_client (kb : List KBEntry) (llm : Option LLMResult)
    (text : String) :
    (classifyTicket kb llm text (some "")).client_id = "unknown-client"
    ∧ (classifyTicket kb llm text none).client_id = "unknown-client" := by
  constructor <;> rfl

/-!
## Claim C3 — the analysis-source tag
-/

/-- Truthiness of the selected entry's id, as an existence statement. -/
theorem truthy_map_id (o : Option KBEntry) :
    (truthyOpt (o.map KBEntry.id)).isSome = true
      ↔ ∃ e, o = some e ∧ e.id ≠ "" := by
  cases o with
  | none => simp [truthyOpt]
  | some e =>
    simp only [Option.map_some', truthyOpt]
    split_ifs with h <;> simp [h]

/-- The analysis-source field of the result, unfolded. -/
theorem classify_source_eq (kb : List KBEntry) (llm : Option LLMResult)
    (text : String) (cid : Option String) :
    (classifyTicket kb llm text cid).analysis_source =
      (if llm.isSome ∧ (truthyOpt ((selectKb kb llm text).map KBEntry.id)).isSome
       then "Groq+KB" else if llm.isSome then "Groq" else "Heuristics") := rfl

/-- C3 (counterexample): with a non-empty LLM reply naming `ISSUE-001` and
that entry loaded, the tag is the literal `"Groq+KB"`, not `"LLM+KB"` as the
claim states. -/
theorem claim3_counterexample :
    (classifyTicket
        [KBEntry.mk "ISSUE-001" "Payment failures" "Payment"
          ["payment failed", "error 500"] "Check gateway"]
        (some ⟨none, none, none, some "ISSUE-001", none, none⟩) "x" none
      ).analysis_source = "Groq+KB"
    ∧ (classifyTicket
        [KBEntry.mk "ISSUE-001" "Payment failures" "Payment"
          ["payment failed", "error 500"] "Check gateway"]
        (some ⟨none, none, none, some "ISSUE-001", none, none⟩) "x" none
      ).analysis_source ≠ "LLM+KB"
    ∧ (classifyTicket
        [KBEntry.mk "ISSUE-001" "Payment failures" "Payment"
          ["payment failed", "error 500"] "Check gateway"]
        (some ⟨none, none, none, some "ISSUE-001", none, none⟩) "x" none
      ).kb_match = some "ISSUE-001" := by
  decide

/-- C3 (amended): the tag is exactly `"Groq+KB"` when the LLM reply is
non-empty and a KB entry with a truthy id was selected, exactly `"Groq"`
when the reply is non-empty but no such entry was selected, and exactly
`"Heuristics"` when the reply is empty; no other value occurs. -/
theorem claim3_amended (kb : List KBEntry) (llm : Option LLMResult)
    (text : String) (cid : Option String) :
    ((classifyTicket kb llm text cid).analysis_source = "Groq+KB"
      ∨ (classifyTicket kb llm text cid).analysis_source = "Groq"
      ∨ (classifyTicket kb llm text cid).analysis_source = "Heuristics")
    ∧ ((classifyTicket kb llm text cid).analysis_source = "Groq+KB"
        ↔ llm.isSome = true ∧ ∃ e, selectKb kb llm text = some e ∧ e.id ≠ "")
    ∧ ((classifyTicket kb llm text cid).analysis_source = "Groq"
        ↔ llm.isSome = true
          ∧ ∀ e, selectKb kb llm text = some e → e.id = "")
    ∧ ((classifyTicket kb llm text cid).analysis_source = "Heuristics"
        ↔ llm = none) := by
  rw [classify_source_eq]
  by_cases hl : llm.isSome = true
  · by_cases hk : (truthyOpt ((selectKb kb llm text).map KBEntry.id)).isSome = true
    · rw [if_pos ⟨hl, hk⟩]
      obtain ⟨e, he, hne⟩ := (truthy_map_id (selectKb kb llm text)).mp hk
      refine ⟨Or.inl rfl, ⟨fun _ => ⟨hl, e, he, hne⟩, fun _ => rfl⟩, ⟨?_, ?_⟩,
        ⟨?_, ?_⟩⟩
      · intro hc; exact absurd hc (by decide)
      · rintro ⟨-, hall⟩; exact absurd (hall e he) hne
      · intro hc; exact absurd hc (by decide)
      · intro hnone; subst hnone; simp at hl
    · rw [if_neg (fun hc => hk hc.2), if_pos hl]
      refine ⟨Or.inr (Or.inl rfl), ⟨?_, ?_⟩, ⟨fun _ => ⟨hl, ?_⟩, fun _ => rfl⟩,
        ⟨?_, ?_⟩⟩
      · intro hc; exact absurd hc (by decide)
      · rintro ⟨-, e, he, hne⟩
        exact absurd ((truthy_map_id _).mpr ⟨e, he, hne⟩) hk
      · intro e he
        by_contra hne
        exact hk ((truthy_map_id _).mpr ⟨e, he, hne⟩)
      · intro hc; exact absurd hc (by decide)
      · intro hnone; subst hnone; simp at hl
  · have hnone : llm = none := by
      cases llm with
      | none => rfl
      | some r => simp at hl
    rw [if_neg (fun hc => hl hc.1), if_neg hl]
    refine ⟨Or.inr (Or.inr rfl), ⟨?_, ?_⟩, ⟨?_, ?_⟩, ⟨fun _ => hnone, fun _ => rfl⟩⟩
    · intro hc; exact absurd hc (by decide)
    · rintro ⟨hl', -⟩; exact absurd hl' hl
    · intro hc; exact absurd hc (by decide)
    · rintro ⟨hl', -⟩; exact absurd hl' hl

/-!
## Claim C4 — keyword matcher: strictly-highest score, first on tie
-/

/-- If no remaining entry beats the running best score, the loop of
`_find_kb_entry` keeps the accumulator unchanged. -/
theorem bestAux_le (t : String) :
    ∀ (kb : List KBEntry) (b : Option KBEntry) (s : Nat),
      (∀ e ∈ kb, kbScore t e ≤ s) → bestAux t kb b s = (b, s) := by
  intro kb
  induction kb with
  | nil => intro b s _; rfl
  | cons e rest ih =>
    intro b s h
    have he : kbScore t e ≤ s := h e (by simp)
    simp only [bestAux]
    rw [if_neg (by omega)]
    exact ih b s (fun e' he' => h e' (by simp [he']))

/-- If some remaining entry beats the running best score, the loop of
`_find_kb_entry` returns the earliest entry attaining the maximum score:
its score beats the incoming score, strictly beats every earlier entry's
score, and is at least every entry's score. -/
theorem bestAux_gt (t : String) :
    ∀ (kb : List KBEntry) (b : Option KBEntry) (s : Nat),
      (∃ e ∈ kb, s < kbScore t e) →
      ∃ i : Fin kb.length,
        bestAux t kb b s = (some (kb.get i), kbScore t (kb.get i))
        ∧ s < kbScore t (kb.get i)
        ∧ (∀ j : Fin kb.length, (j : ℕ) < (i : ℕ) →
            kbScore t (kb.get j) < kbScore t (kb.get i))
        ∧ (∀ j : Fin kb.length, kbScore t (kb.get j) ≤ kbScore t (kb.get i)) := by
  intro kb
  induction kb with
  | nil => intro b s h; simp at h
  | cons e rest ih =>
    intro b s h
    by_cases hc : kbScore t e > s
    · by_cases hrest : ∃ e' ∈ rest, kbScore t e < kbScore t e'
      · obtain ⟨i', h1, h2, h3, h4⟩ := ih (some e) (kbScore t e) hrest
        refine ⟨i'.succ, ?_, lt_trans hc h2, ?_, ?_⟩
        · simp only [bestAux]
          rw [if_pos hc, h1]
          rfl
        · intro j hj
          rcases Fin.eq_zero_or_eq_succ j with rfl | ⟨j', rfl⟩
          · exact h2
          · exact h3 j' (by simpa using hj)
        · intro j
          rcases Fin.eq_zero_or_eq_succ j with rfl | ⟨j', rfl⟩
          · exact le_of_lt h2
          · exact h4 j'
      · push_neg at hrest
        refine ⟨⟨0, by simp⟩, ?_, hc, ?_, ?_⟩
        · simp only [bestAux]
          rw [if_pos hc, bestAux_le t rest (some e) (kbScore t e) hrest]
          rfl
        · intro j hj
          exact absurd hj (by simp)
        · intro j
          rcases Fin.eq_zero_or_eq_succ j with rfl | ⟨j', rfl⟩
          · exact le_refl _
          · exact hrest (rest.get j') (rest.get_mem _ _)
    · have hrest : ∃ e' ∈ rest, s < kbScore t e' := by
        obtain ⟨e', he', hgt⟩ := h
        rcases List.mem_cons.mp he' with rfl | hmem
        · exact absurd hgt hc
        · exact ⟨e', hmem, hgt⟩
      obtain ⟨i', h1, h2, h3, h4⟩ := ih b s hrest
      have hes : kbScore t e ≤ s := by omega
      refine ⟨i'.succ, ?_, h2, ?_, ?_⟩
      · simp only [bestAux]
        rw [if_neg hc, h1]
        rfl
      · intro j hj
        rcases Fin.eq_zero_or_eq_succ j with rfl | ⟨j', rfl⟩
        · exact lt_of_le_of_lt hes h2
        · exact h3 j' (by simpa using hj)
      · intro j
        rcases Fin.eq_zero_or_eq_succ j with rfl | ⟨j', rfl⟩
        · exact le_trans hes (le_of_lt h2)
        · exact h4 j'

/-- C4: the keyword matcher returns absent exactly when every entry scores 0;
otherwise it returns the earliest entry attaining the maximum symptom-count
score — strictly above every earlier entry's score (so ties keep the
first-seen entry in load order) and at least every entry's score. -/
theorem claim4_keyword_matcher (kb : List KBEntry) (text : String) :
    (findKbEntry kb text = none ↔ ∀ e ∈ kb, kbScore (strLower text) e = 0)
    ∧ (∀ e, findKbEntry kb text = some e →
        1 ≤ kbScore (strLower text) e
        ∧ ∃ i : Fin kb.length, kb.get i = e
            ∧ (∀ j : Fin kb.length, (j : ℕ) < (i : ℕ) →
                kbScore (strLower text) (kb.get j) < kbScore (strLower text) e)
            ∧ (∀ j : Fin kb.length,
                kbScore (strLower text) (kb.get j) ≤ kbScore (strLower text) e))
    ∧ ((∃ e ∈ kb, 1 ≤ kbScore (strLower text) e) →
        ∃ e, findKbEntry kb text = some e) := by
  by_cases hall : ∀ e ∈ kb, kbScore (strLower text) e = 0
  · have hz := bestAux_le (strLower text) kb none 0
      (fun e he => le_of_eq (hall e he))
    have hnone : findKbEntry kb text = none := by
      simp only [findKbEntry, hz]
      rfl
    refine ⟨⟨fun _ => hall, fun _ => hnone⟩, ?_, ?_⟩
    · intro e he
      rw [hnone] at he
      exact absurd he (by simp)
    · rintro ⟨e, he, h1⟩
      have := hall e he
      omega
  · push_neg at hall
    have hex : ∃ e ∈ kb, 0 < kbScore (strLower text) e := by
      obtain ⟨e, he, hne⟩ := hall
      exact ⟨e, he, Nat.pos_of_ne_zero hne⟩
    obtain ⟨i, h1, h2, h3, h4⟩ := bestAux_gt (strLower text) kb none 0 hex
    have hsome : findKbEntry kb text = some (kb.get i) := by
      simp only [findKbEntry, h1]
      rw [if_pos h2]
    refine ⟨⟨?_, ?_⟩, ?_, fun _ => ⟨kb.get i, hsome⟩⟩
    · intro hc
      rw [hsome] at hc
      exact absurd hc (by simp)
    · intro hc
      obtain ⟨e, he, hpos⟩ := hex
      have := hc e he
      omega
    · intro e he
      rw [hsome] at he
      cases he
      exact ⟨h2, i, rfl, h3, h4⟩

/-- Witness for C4: two entries share the symptom `"alpha"`; on text
containing it both score 1 and the first-loaded entry wins. -/
theorem claim4_keyword_matcher_witness :
    findKbEntry
      [KBEntry.mk "A" "" "" ["alpha"] "", KBEntry.mk "B" "" "" ["alpha"] ""]
      "alpha beta" = some (KBEntry.mk "A" "" "" ["alpha"] "")
    ∧ 1 ≤ kbScore (strLower "alpha beta") (KBEntry.mk "A" "" "" ["alpha"] "") :=
  ⟨by decide,
    ((claim4_keyword_matcher
        [KBEntry.mk "A" "" "" ["alpha"] "", KBEntry.mk "B" "" "" ["alpha"] ""]
        "alpha beta").2.1
      (KBEntry.mk "A" "" "" ["alpha"] "") (by decide)).1⟩

/-!
## Claim C5 — KB entry selection in the merger
-/

/-- A hit of the id-lookup loop is a member whose normalized id matches. -/
theorem findById_some {kb : List KBEntry} {n : String} {e : KBEntry}
    (h : findById kb n = some e) :
    e ∈ kb ∧ strLower (pyStrip e.id) = strLower n := by
  induction kb with
  | nil => simp [findById] at h
  | cons e' rest ih =>
    simp only [findById] at h
    split at h
    · next heq => cases h; exact ⟨by simp, heq⟩
    · obtain ⟨hm, he⟩ := ih h
      exact ⟨by simp [hm], he⟩

/-- If a member's normalized id matches, the id-lookup loop finds a hit. -/
theorem findById_exists {kb : List KBEntry} {n : String}
    (h : ∃ e ∈ kb, strLower (pyStrip e.id) = strLower n) :
    ∃ e, findById kb n = some e := by
  induction kb with
  | nil => simp at h
  | cons e' rest ih =>
    by_cases he' : strLower (pyStrip e'.id) = strLower n
    · exact ⟨e', by simp [findById, he']⟩
    · obtain ⟨e, hm, heq⟩ := h
      rcases List.mem_cons.mp hm with rfl | hmem
      · exact absurd heq he'
      · obtain ⟨e'', h''⟩ := ih ⟨e, hmem, heq⟩
        exact ⟨e'', by simp [findById, he', h'']⟩

/-- If no member's normalized id matches, the id-lookup loop misses. -/
theorem findById_none {kb : List KBEntry} {n : String}
    (h : ∀ e ∈ kb, strLower (pyStrip e.id) ≠ strLower n) :
    findById kb n = none := by
  induction kb with
  | nil => rfl
  | cons e' rest ih =>
    simp only [findById]
    rw [if_neg (h e' (by simp))]
    exact ih (fun e he => h e (by simp [he]))

/-- C5: the merger selects a loaded entry whose id equals (trimmed,
case-insensitively) the LLM's `kb_issue_id` whenever one exists; when the
`kb_issue_id` is absent or empty, matches no loaded entry, or is the
sentinel `"NEW_ISSUE"` (and no entry carries that id), the merger selects
the keyword matcher's result on the raw text instead. -/
theorem claim5_kb_selection (kb : List KBEntry) (llm : Option LLMResult)
    (text : String) :
    ((∃ s, llm.bind LLMResult.kb_issue_id = some s ∧ s ≠ ""
        ∧ ∃ e ∈ kb, strLower (pyStrip e.id) = strLower (pyStrip s)) →
      ∃ e, selectKb kb llm text = some e ∧ e ∈ kb
        ∧ ∃ s, llm.bind LLMResult.kb_issue_id = some s
            ∧ strLower (pyStrip e.id) = strLower (pyStrip s))
    ∧ ((∀ s, llm.bind LLMResult.kb_issue_id = some s → s ≠ "" →
          ∀ e ∈ kb, strLower (pyStrip e.id) ≠ strLower (pyStrip s)) →
        selectKb kb llm text = findKbEntry kb text)
    ∧ (llm.bind LLMResult.kb_issue_id = some "NEW_ISSUE" →
        (∀ e ∈ kb, strLower (pyStrip e.id) ≠ "new_issue") →
        selectKb kb llm text = findKbEntry kb text) := by
  refine ⟨?_, ?_, ?_⟩
  · rintro ⟨s, hs, hne, hex⟩
    obtain ⟨e', he'⟩ := findById_exists hex
    obtain ⟨hm, heq⟩ := findById_some he'
    refine ⟨e', ?_, hm, s, hs, heq⟩
    simp only [selectKb, getKbEntryById, hs]
    rw [if_neg hne, he']
  · intro hno
    cases hb : llm.bind LLMResult.kb_issue_id with
    | none => simp [selectKb, getKbEntryById, hb]
    | some s =>
      by_cases hse : s = ""
      · simp [selectKb, getKbEntryById, hb, hse]
      · simp [selectKb, getKbEntryById, hb, hse, findById_none (hno s hb hse)]
  · intro hb hno
    have hfind : findById kb (pyStrip "NEW_ISSUE") = none := by
      apply findById_none
      intro e he
      have hni : strLower (pyStrip ("NEW_ISSUE" : String)) = "new_issue" := by
        decide
      rw [hni]
      exact hno e he
    have hne : ¬("NEW_ISSUE" : String) = "" := by decide
    simp [selectKb, getKbEntryById, hb, hne, hfind]

/-- Witness for C5 at a concrete KB and a trimmed, case-flipped LLM id. -/
theorem claim5_kb_selection_witness :
    ∃ e, selectKb
        [KBEntry.mk "ISSUE-001" "Payment failures" "Payment"
          ["payment failed"] "Check gateway"]
        (some ⟨none, none, none, some " issue-001 ", none, none⟩) "t" = some e
      ∧ e ∈ [KBEntry.mk "ISSUE-001" "Payment failures" "Payment"
          ["payment failed"] "Check gateway"]
      ∧ ∃ s, (some (⟨none, none, none, some " issue-001 ", none, none⟩ :
            LLMResult)).bind LLMResult.kb_issue_id = some s
          ∧ strLower (pyStrip e.id) = strLower (pyStrip s) :=
  (claim5_kb_selection
    [KBEntry.mk "ISSUE-001" "Payment failures" "Payment"
      ["payment failed"] "Check gateway"]
    (some ⟨none, none, none, some " issue-001 ", none, none⟩) "t").1
    ⟨" issue-001 ", rfl, by decide, by decide⟩

/-!
## Persistence gateway model (`app/firebase_client.py`) — claims C2 and C8

The dicts that cross the gateway boundary are association lists of Python
values; `dictSet` is in-place key assignment (replace first occurrence or
append), mirroring CPython dict semantics.
-/

/-- A Python value stored in a persisted dict: a string, `None`, or the raw
LLM reply dict (kept abstract as the parsed record; `none` is the empty
dict `\x7b\x7d`). -/
inductive PVal where
  | str : String → PVal
  | null : PVal
  | llmv : Option LLMResult → PVal
deriving DecidableEq, Repr

/-- Encode an optional string the way the result dict stores it. -/
def optV (o : Option String) : PVal :=
  match o with
  | some s => PVal.str s
  | none => PVal.null

/-- Python truthiness of a stored value. -/
def pvalTruthy : PVal → Bool
  | PVal.str s => !(s = "")
  | PVal.null => false
  | PVal.llmv o => o.isSome

/-- Python `d[k] = v`: replace the first binding of `k` or append. -/
def dictSet : List (String × PVal) → String → PVal → List (String × PVal)
  | [], k, v => [(k, v)]
  | (k', v') :: t, k, v =>
    if k' = k then (k, v) :: t else (k', v') :: dictSet t k v

/-- Python `d.get(k)`. -/
def dictGet : List (String × PVal) → String → Option PVal
  | [], _ => none
  | (k', v') :: t, k => if k' = k then some v' else dictGet t k

/-- Python `\x7b**a, **b\x7d`-style merge: start from `a`, assign every
binding of `b`. -/
def dictMerge (a b : List (String × PVal)) : List (String × PVal) :=
  b.foldl (fun d kv => dictSet d kv.1 kv.2) a

/-- The dict literal built at `app/classifier.py` lines 297–308, in source
order. -/
def resultToDict (r : ClassificationResult) : List (String × PVal) :=
  [("client_id", PVal.str r.client_id),
   ("summary", PVal.str r.summary),
   ("full_summary", optV r.full_summary),
   ("full_text", PVal.str r.full_text),
   ("category", PVal.str r.category),
   ("severity", PVal.str r.severity),
   ("kb_match", optV r.kb_match),
   ("next_step", PVal.str r.next_step),
   ("analysis_source", PVal.str r.analysis_source),
   ("llm_raw", PVal.llmv r.llm_raw)]

/-- Outcomes of the gateway's external effects: whether a Firestore client
could be created, whether its writes succeed, the local-fallback toggle,
whether the local append succeeds, and the wall-clock timestamp string. -/
structure PersistEnv where
  firestoreAvailable : Bool
  firestoreWriteOk : Bool
  allowLocalFallback : Bool
  localWriteOk : Bool
  now : String
deriving DecidableEq, Repr

/-- Model of `_build_payload` (`app/firebase_client.py` lines 67–74): a fresh
dict with `ticket`, a defaulted `client_id`, every binding of
`classification`, then a `created_at` stamp. -/
def buildPayload (env : PersistEnv) (ticketText : String)
    (classification : List (String × PVal)) : List (String × PVal) :=
  dictSet
    (dictMerge
      [("ticket", PVal.str ticketText),
       ("client_id", (dictGet classification "client_id").getD
          (PVal.str "unknown-client"))]
      classification)
    "created_at" (PVal.str env.now)

/-- Model of `_persist_to_firestore` (`app/firebase_client.py` lines
86–132).  Returns the success flag and the (possibly mutated!)
`classification` argument: when a client exists and `kb_match` is falsy the
function assigns `classification["kb_match"] = "NEW_ISSUES"` and
`classification["kb_source"] = "auto_generated"` in place (lines 95–102)
before attempting the writes; all exceptions from the writes are caught and
become `False`. -/
def persistToFirestore (env : PersistEnv) (_payload : List (String × PVal))
    (classification : List (String × PVal)) : Bool × List (String × PVal) :=
  if env.firestoreAvailable then
    let c :=
      match dictGet classification "kb_match" with
      | some v =>
        if pvalTruthy v then classification
        else dictSet (dictSet classification "kb_match" (PVal.str "NEW_ISSUES"))
          "kb_source" (PVal.str "auto_generated")
      | none =>
        dictSet (dictSet classification "kb_match" (PVal.str "NEW_ISSUES"))
          "kb_source" (PVal.str "auto_generated")
    (env.firestoreWriteOk, c)
  else (false, classification)

/-- Model of `save_ticket_result` (`app/firebase_client.py` lines 144–151):
primary write, then raise if fallback is disabled, else local append whose
own failure is reported as `False`, never raised.  The second component is
the final state of the `classification` dict the caller passed in. -/
def fbSaveTicketResult (env : PersistEnv) (ticketText : String)
    (classification : List (String × PVal)) :
    Except String Bool × List (String × PVal) :=
  let r := persistToFirestore env (buildPayload env ticketText classification)
    classification
  if r.1 then (Except.ok true, r.2)
  else if !env.allowLocalFallback then
    (Except.error "Firestore failed and local fallback disabled.", r.2)
  else (Except.ok env.localWriteOk, r.2)

/-- Model of the classifier-side `save_ticket_result`
(`app/classifier.py` lines 242–256): builds the *copy*
`\x7b"original_input": ticket_text, **classification\x7d` and hands it to the
gateway, swallowing any exception.  Returns the copy's final state. -/
def clSaveTicketResult (env : PersistEnv) (ticketText : String)
    (resultDict : List (String × PVal)) : List (String × PVal) :=
  (fbSaveTicketResult env ticketText
    (dictMerge [("original_input", PVal.str ticketText)] resultDict)).2

/-- The full pipeline of `classify_ticket` including the persistence side
effect (`app/classifier.py` line 310): the first component is the record
returned to the caller, the second is the final state of the dict the
Persistence Gateway operated on. -/
def classifyAndPersist (env : PersistEnv) (kb : List KBEntry)
    (llm : Option LLMResult) (text : String) (clientId : Option String) :
    ClassificationResult × List (String × PVal) :=
  let result := classifyTicket kb llm text clientId
  (result, clSaveTicketResult env text (resultToDict result))

/-- C2: the result handed back to the caller is exactly the record built
before persistence — same fields, same key set; the gateway's in-place
`kb_match`/`kb_source` rewrite lands on the copy made by the classifier's
`save_ticket_result`, as shown by the concrete run where the copy ends with
`kb_match = "NEW_ISSUES"` while the returned result still has `kb_match`
absent. -/
theorem claim2_no_mutation (env : PersistEnv) (kb : List KBEntry)
    (llm : Option LLMResult) (text : String) (cid : Option String) :
    ((classifyAndPersist env kb llm text cid).1 = classifyTicket kb llm text cid
    ∧ resultToDict (classifyAndPersist env kb llm text cid).1 =
        resultToDict (classifyTicket kb llm text cid)
    ∧ (resultToDict (classifyAndPersist env kb llm text cid).1).map Prod.fst =
        ["client_id", "summary", "full_summary", "full_text", "category",
         "severity", "kb_match", "next_step", "analysis_source", "llm_raw"]
    ∧ dictGet (resultToDict (classifyAndPersist env kb llm text cid).1)
        "kb_match" = some (optV (classifyTicket kb llm text cid).kb_match))
    ∧ dictGet (classifyAndPersist ⟨true, true, true, true, "T"⟩ [] none
        "q" none).2 "kb_match" = some (PVal.str "NEW_ISSUES")
    ∧ (classifyAndPersist ⟨true, true, true, true, "T"⟩ [] none
        "q" none).1.kb_match = none := by
  exact ⟨⟨rfl, rfl, rfl, rfl⟩, by decide, by decide⟩

/-- Reading the primary-path success flag. -/
theorem persistToFirestore_fst (env : PersistEnv)
    (payload classification : List (String × PVal)) :
    (persistToFirestore env payload classification).1 =
      (env.firestoreAvailable && env.firestoreWriteOk) := by
  unfold persistToFirestore
  cases env.firestoreAvailable <;> simp

/-- C8: the gateway's `save_ticket_result` raises exactly when the primary
write fails (no client, or a write error) *and* local fallback is disabled;
when the primary write succeeds it returns `True`; when the primary write
fails with fallback enabled it returns the local append's boolean outcome
without raising. -/
theorem claim8_persistence_error (env : PersistEnv) (ticketText : String)
    (classification : List (String × PVal)) :
    ((∃ msg, (fbSaveTicketResult env ticketText classification).1 =
        Except.error msg)
      ↔ (env.firestoreAvailable && env.firestoreWriteOk) = false
        ∧ env.allowLocalFallback = false)
    ∧ ((env.firestoreAvailable && env.firestoreWriteOk) = true →
        (fbSaveTicketResult env ticketText classification).1 = Except.ok true)
    ∧ ((env.firestoreAvailable && env.firestoreWriteOk) = false →
        env.allowLocalFallback = true →
        (fbSaveTicketResult env ticketText classification).1 =
          Except.ok env.localWriteOk) := by
  obtain ⟨fa, fw, alf, lw, now⟩ := env
  simp only [fbSaveTicketResult, persistToFirestore_fst]
  cases fa <;> cases fw <;> cases alf <;> simp

/-- Witness for C8: with the primary store up, persistence returns `True`. -/
theorem claim8_persistence_error_witness :
    (fbSaveTicketResult ⟨true, true, true, true, "T"⟩ "t" []).1 =
      Except.ok true :=
  (claim8_persistence_error ⟨true, true, true, true, "T"⟩ "t" []).2.1 (by decide)

/-!
## Claim C9 — JSON auto-repair (`_repair_json`, `app/classifier.py` 137–159)

The LLM reply schema (spec §4.4) is a flat JSON object mapping string keys
to string values, so strict parsing (`json.loads`) is modelled on that
fragment: a parse that accepts `\x7b "k": "v", ... \x7d` documents (with
arbitrary surrounding whitespace and escape-free strings) and rejects
everything else, as `json.loads` does on single-quoted or trailing-comma
input.  `re.sub(r",\s*\x7d", ...)` is a leftmost-match single-pass scan,
embedded as a state machine whose pending state holds the comma-and-
whitespace run (reversed) seen so far.
-/

/-- One leftmost-match pass of `re.sub(",\s*" ++ close, close, s)`:
in state `none` we copy characters, entering the pending state at a comma;
in state `some buf` (`buf` = the pending `,`-and-whitespace run, reversed)
a `close` completes the match (the run is dropped), whitespace extends it,
a new comma flushes the run and restarts, anything else flushes and copies. -/
def subCCAux (close : Char) : Option (List Char) → List Char → List Char
  | none, [] => []
  | none, c :: t =>
    if c = ',' then subCCAux close (some [',']) t
    else c :: subCCAux close none t
  | some buf, [] => buf.reverse
  | some buf, c :: t =>
    if c = close then close :: subCCAux close none t
    else if c.isWhitespace then subCCAux close (some (c :: buf)) t
    else if c = ',' then buf.reverse ++ subCCAux close (some [',']) t
    else buf.reverse ++ c :: subCCAux close none t

/-- Replace every `,` + whitespace run + `close` by `close`. -/
def subCC (close : Char) (l : List Char) : List Char := subCCAux close none l

/-- The two character replacements of `_repair_json`
(single quote → double quote, newline → space), fused into one map. -/
def fixChar (c : Char) : Char :=
  if c = '\'' then '"' else if c = '\n' then ' ' else c

/-- The cleanup pipeline of `_repair_json` (lines 145–150): quote and
newline replacement, then the two trailing-comma substitutions. -/
def cleanReply (l : List Char) : List Char :=
  subCC ']' (subCC '}' (l.map fixChar))

/-- Scan the body of a JSON string until the closing double quote
(escape-free fragment).  A raw control character (code point below U+0020)
is a parse error, as in `json.loads` with its default `strict=True`
("Invalid control character"). -/
def scanStr : List Char → Option (List Char × List Char)
  | [] => none
  | c :: t =>
    if c = '"' then some ([], t)
    else if c.toNat < 32 then none
    else
      match scanStr t with
      | some (s, r) => some (c :: s, r)
      | none => none

/-- Parse one double-quoted JSON string literal. -/
def parseStr : List Char → Option (List Char × List Char)
  | '"' :: rest => scanStr rest
  | _ => none

/-- JSON insignificant whitespace (space, tab, CR, LF). -/
def skipWs (l : List Char) : List Char := l.dropWhile Char.isWhitespace

/-- Parse the members of a non-empty flat object, fuelled by the maximum
number of key/value pairs still possible (each step consumes one pair). -/
def parseMembersF : Nat → List Char → Option (List (String × String) × List Char)
  | 0, _ => none
  | fuel + 1, l =>
    match parseStr l with
    | none => none
    | some (k, r1) =>
      match skipWs r1 with
      | ':' :: r2 =>
        match parseStr (skipWs r2) with
        | none => none
        | some (v, r3) =>
          match skipWs r3 with
          | ',' :: r4 =>
            match parseMembersF fuel (skipWs r4) with
            | some (o, tail) => some ((⟨k⟩, ⟨v⟩) :: o, tail)
            | none => none
          | '}' :: r4 => some ([(⟨k⟩, ⟨v⟩)], r4)
          | _ => none
      | _ => none

/-- Members of a flat object; the input length bounds the pair count. -/
def parseMembers (l : List Char) : Option (List (String × String) × List Char) :=
  parseMembersF l.length l

/-- Model of `json.loads` on the flat string-object fragment: optional
whitespace, `\x7b`, members (or an immediately closed empty object),
optional trailing whitespace, end of input.  Anything else — in particular
single-quoted strings, trailing commas, and raw control characters (below
U+0020) whether inside a string literal (rejected by `scanStr`, matching
CPython's `strict=True`) or between tokens (no match arm accepts them,
since JSON whitespace is only space/tab/CR/LF) — is a parse error
(`none`). -/
def parseFlat (l : List Char) : Option (List (String × String)) :=
  match skipWs l with
  | '{' :: rest =>
    match skipWs rest with
    | '}' :: tail => if skipWs tail = [] then some [] else none
    | r =>
      match parseMembers r with
      | some (o, tail) => if skipWs tail = [] then some o else none
      | none => none
  | _ => none

/-- Model of `_repair_json`: strict parse; on failure clean the reply and
parse once more; on failure again return the empty dict. -/
def repairJson (s : String) : List (String × String) :=
  match parseFlat s.data with
  | some o => o
  | none =>
    match parseFlat (cleanReply s.data) with
    | some o => o
    | none => []

/-- A well-formed rendered pair `"k": "v"`. -/
def pairD (k v : String) : List Char :=
  '"' :: k.data ++ '"' :: ':' :: ' ' :: '"' :: v.data ++ ['"']

/-- A single-quoted rendered pair `'k': 'v'`. -/
def pairS (k v : String) : List Char :=
  '\'' :: k.data ++ '\'' :: ':' :: ' ' :: '\'' :: v.data ++ ['\'']

/-- Well-formed members, comma-space separated. -/
def renderPairsD : List (String × String) → List Char
  | [] => []
  | [(k, v)] => pairD k v
  | (k, v) :: rest => pairD k v ++ ',' :: ' ' :: renderPairsD rest

/-- Single-quoted members, comma-space separated. -/
def renderPairsS : List (String × String) → List Char
  | [] => []
  | [(k, v)] => pairS k v
  | (k, v) :: rest => pairS k v ++ ',' :: ' ' :: renderPairsS rest

/-- The canonical well-formed rendering of a flat object. -/
def renderD (o : List (String × String)) : String :=
  ⟨'{' :: renderPairsD o ++ ['}']⟩

/-- The malformed rendering: single quotes and a trailing comma before the
closing brace. -/
def renderS (o : List (String × String)) : String :=
  ⟨'{' :: renderPairsS o ++ [',', '}']⟩

/-- Characters that take no part in any delimiter, replacement or
substitution pattern of the repair pipeline, and that strict JSON parsing
accepts raw inside a string literal (no control characters below U+0020,
which `json.loads` rejects with "Invalid control character"). -/
def goodChar (c : Char) : Prop :=
  c ≠ '\'' ∧ c ≠ '"' ∧ c ≠ '\\' ∧ c ≠ '\n' ∧ c ≠ '\r' ∧ c ≠ '\t'
  ∧ c ≠ '}' ∧ c ≠ ']' ∧ 32 ≤ c.toNat

instance (c : Char) : Decidable (goodChar c) := by
  unfold goodChar
  infer_instance

/-- Mapping a function that fixes every element of a list is the identity. -/
theorem mapNoop {f : Char → Char} :
    ∀ l : List Char, (∀ c ∈ l, f c = c) → l.map f = l := by
  intro l
  induction l with
  | nil => intro _; rfl
  | cons c t ih =>
    intro h
    rw [List.map_cons, h c (by simp), ih (fun c' hc' => h c' (by simp [hc']))]

/-- Characters untouched by both replacements are fixed by `fixChar`. -/
theorem fixChar_good {c : Char} (h : goodChar c) : fixChar c = c := by
  unfold fixChar
  rw [if_neg h.1, if_neg h.2.2.2.1]

/-- The substitution scan copies any list free of the closing character. -/
theorem subCCAux_no_close (close : Char) :
    ∀ l : List Char, close ∉ l →
      subCCAux close none l = l
      ∧ ∀ buf, subCCAux close (some buf) l = buf.reverse ++ l := by
  intro l
  induction l with
  | nil => intro _; exact ⟨rfl, fun buf => by simp [subCCAux]⟩
  | cons c t ih =>
    intro h
    have hc : c ≠ close := fun hcc => h (hcc ▸ List.mem_cons_self c t)
    have ht : close ∉ t := fun hm => h (List.mem_cons_of_mem c hm)
    obtain ⟨ih1, ih2⟩ := ih ht
    constructor
    · by_cases hcomma : c = ','
      · subst hcomma
        simp only [subCCAux, if_pos rfl]
        rw [ih2 [',']]
        rfl
      · simp only [subCCAux, if_neg hcomma]
        rw [ih1]
    · intro buf
      by_cases hws : c.isWhitespace = true
      · simp only [subCCAux, if_neg hc, if_pos hws]
        rw [ih2 (c :: buf)]
        simp
      · by_cases hcomma : c = ','
        · subst hcomma
          simp only [subCCAux, if_neg hc, if_neg hws, if_pos rfl]
          rw [ih2 [',']]
          simp
        · simp only [subCCAux, if_neg hc, if_neg hws, if_neg hcomma]
          rw [ih1]

/-- On a close-free prefix followed by the pattern `,close`, the scan copies
the prefix and collapses the pattern to `close` (the substitution fires). -/
theorem subCCAux_final (close : Char) (hcc : close ≠ ',') :
    ∀ xs : List Char, close ∉ xs →
      subCCAux close none (xs ++ [',', close]) = xs ++ [close]
      ∧ ∀ buf, subCCAux close (some buf) (xs ++ [',', close]) =
          buf.reverse ++ xs ++ [close] := by
  have hstep : ∀ buf, subCCAux close (some buf) [',', close] =
      buf.reverse ++ [close] := by
    intro buf
    simp [subCCAux, Ne.symm hcc, (by decide : (',').isWhitespace = false)]
  intro xs
  induction xs with
  | nil =>
    intro _
    constructor
    · simp [subCCAux]
    · intro buf
      simpa using hstep buf
  | cons c t ih =>
    intro h
    have hc : c ≠ close := fun hcc' => h (hcc' ▸ List.mem_cons_self c t)
    have ht : close ∉ t := fun hm => h (List.mem_cons_of_mem c hm)
    obtain ⟨ih1, ih2⟩ := ih ht
    constructor
    · by_cases hcomma : c = ','
      · subst hcomma
        simp [subCCAux, ih2]
      · simp [subCCAux, hcomma, ih1]
    · intro buf
      by_cases hws : c.isWhitespace = true
      · simp [subCCAux, hc, hws, ih2]
      · by_cases hcomma : c = ','
        · subst hcomma
          simp [subCCAux, hc, hws, ih2]
        · simp [subCCAux, hc, hws, hcomma, ih1]

/-- Non-whitespace heads survive `skipWs`. -/
theorem skipWs_cons_nws {c : Char} (l : List Char)
    (h : c.isWhitespace = false) : skipWs (c :: l) = c :: l := by
  unfold skipWs
  rw [List.dropWhile_cons_of_neg]
  simp [h]

/-- Whitespace heads are dropped by `skipWs`. -/
theorem skipWs_cons_ws {c : Char} (l : List Char)
    (h : c.isWhitespace = true) : skipWs (c :: l) = skipWs l := by
  unfold skipWs
  rw [List.dropWhile_cons_of_pos]
  exact h

theorem skipWs_colon (l : List Char) : skipWs (':' :: l) = ':' :: l :=
  skipWs_cons_nws l (by decide)

theorem skipWs_quote (l : List Char) : skipWs ('"' :: l) = '"' :: l :=
  skipWs_cons_nws l (by decide)

theorem skipWs_comma (l : List Char) : skipWs (',' :: l) = ',' :: l :=
  skipWs_cons_nws l (by decide)

theorem skipWs_rbrace (l : List Char) : skipWs ('}' :: l) = '}' :: l :=
  skipWs_cons_nws l (by decide)

theorem skipWs_lbrace (l : List Char) : skipWs ('{' :: l) = '{' :: l :=
  skipWs_cons_nws l (by decide)

theorem skipWs_space (l : List Char) : skipWs (' ' :: l) = skipWs l :=
  skipWs_cons_ws l (by decide)

/-- String-body scan: a body free of quotes and raw control characters,
followed by a closing quote. -/
theorem scanStr_render :
    ∀ (s rest : List Char), (∀ c ∈ s, c ≠ '"' ∧ 32 ≤ c.toNat) →
      scanStr (s ++ '"' :: rest) = some (s, rest) := by
  intro s
  induction s with
  | nil => intro rest _; simp [scanStr]
  | cons c t ih =>
    intro rest h
    obtain ⟨hc, hctl⟩ := h c (by simp)
    simp only [List.cons_append, scanStr, if_neg hc, List.append_eq]
    rw [if_neg (by omega)]
    rw [ih rest (fun c' hc' => h c' (by simp [hc']))]

/-- String-literal parse on a canonical rendering. -/
theorem parseStr_render (s rest : List Char)
    (h : ∀ c ∈ s, c ≠ '"' ∧ 32 ≤ c.toNat) :
    parseStr ('"' :: (s ++ '"' :: rest)) = some (s, rest) :=
  scanStr_render s rest h

/-- Every rendered member list starts with a double quote. -/
theorem renderPairsD_cons_start (k v : String) (rest : List (String × String)) :
    ∃ L, renderPairsD ((k, v) :: rest) = '"' :: L := by
  cases rest with
  | nil => exact ⟨k.data ++ '"' :: ':' :: ' ' :: '"' :: v.data ++ ['"'], rfl⟩
  | cons q r' =>
    exact ⟨(k.data ++ '"' :: ':' :: ' ' :: '"' :: v.data ++ ['"'])
        ++ ',' :: ' ' :: renderPairsD (q :: r'),
      by simp [renderPairsD, pairD]⟩

/-- Keys and values made of good characters contain no double quote and no
raw control character, so the string scanner accepts them. -/
theorem good_str_ok {s : String} (h : ∀ c ∈ s.data, goodChar c) :
    ∀ c ∈ s.data, c ≠ '"' ∧ 32 ≤ c.toNat :=
  fun c hc => ⟨(h c hc).2.1, (h c hc).2.2.2.2.2.2.2.2⟩

/-- Completeness of the member parser on the canonical rendering, for any
fuel at least the number of pairs. -/
theorem parseMembersF_renderD :
    ∀ (o : List (String × String)) (fuel : Nat) (tail : List Char),
      o ≠ [] →
      (∀ p ∈ o, (∀ c ∈ (Prod.fst p).data, goodChar c)
        ∧ ∀ c ∈ (Prod.snd p).data, goodChar c) →
      o.length ≤ fuel →
      parseMembersF fuel (renderPairsD o ++ '}' :: tail) = some (o, tail) := by
  intro o
  induction o with
  | nil => intro fuel tail h _ _; exact absurd rfl h
  | cons p rest ih =>
    intro fuel tail _ hgood hlen
    obtain ⟨k, v⟩ := p
    obtain ⟨hk, hv⟩ := hgood (k, v) (by simp)
    have hkq := good_str_ok hk
    have hvq := good_str_ok hv
    cases fuel with
    | zero => simp at hlen
    | succ f =>
      cases rest with
      | nil =>
        have hshape : renderPairsD [(k, v)] ++ '}' :: tail
            = '"' :: (k.data ++ '"' ::
                (':' :: ' ' :: '"' :: (v.data ++ '"' :: ('}' :: tail)))) := by
          simp [renderPairsD, pairD]
        rw [hshape]
        simp only [parseMembersF, parseStr_render k.data _ hkq, skipWs_colon,
          skipWs_space, skipWs_quote]
        rw [parseStr_render v.data ('}' :: tail) hvq]
        simp [skipWs_rbrace]
      | cons q rest' =>
        have hshape : renderPairsD ((k, v) :: q :: rest') ++ '}' :: tail
            = '"' :: (k.data ++ '"' ::
                (':' :: ' ' :: '"' :: (v.data ++ '"' ::
                  (',' :: ' ' :: (renderPairsD (q :: rest') ++ '}' :: tail))))) := by
          simp [renderPairsD, pairD]
        rw [hshape]
        simp only [parseMembersF, parseStr_render k.data _ hkq, skipWs_colon,
          skipWs_space, skipWs_quote]
        rw [parseStr_render v.data
          (',' :: ' ' :: (renderPairsD (q :: rest') ++ '}' :: tail)) hvq]
        simp only [skipWs_comma]
        obtain ⟨L, hL⟩ := renderPairsD_cons_start q.1 q.2 rest'
        have hq : q = (q.1, q.2) := rfl
        have hskip : skipWs (' ' :: (renderPairsD (q :: rest') ++ '}' :: tail))
            = renderPairsD (q :: rest') ++ '}' :: tail := by
          rw [skipWs_space]
          rw [hq, hL, List.cons_append, skipWs_quote]
        have hrec := ih f tail (by simp) (fun p hp => hgood p (by simp [hp]))
          (by simpa using Nat.le_of_succ_le_succ hlen)
        simp [hskip, hrec]

/-- A rendered member list is at least as long as its pair list. -/
theorem renderPairsD_length :
    ∀ o : List (String × String), o.length ≤ (renderPairsD o).length := by
  intro o
  induction o with
  | nil => simp [renderPairsD]
  | cons p rest ih =>
    obtain ⟨k, v⟩ := p
    cases rest with
    | nil => simp [renderPairsD, pairD]
    | cons q r' =>
      simp only [renderPairsD, pairD, List.length_append, List.length_cons] at ih ⊢
      omega

/-- Assembling `parseFlat` from a successful member parse. -/
theorem parseFlat_of_members {r L : List Char} {o : List (String × String)}
    (hr : r = '"' :: L) (hm : parseMembers (r ++ ['}']) = some (o, [])) :
    parseFlat ('{' :: (r ++ ['}'])) = some o := by
  subst hr
  rw [List.cons_append] at hm
  simp only [parseFlat, skipWs_lbrace, List.cons_append, skipWs_quote]
  simp [hm, skipWs]

/-- Completeness: strict parsing accepts the canonical rendering. -/
theorem parseFlat_renderD (o : List (String × String)) (h1 : o ≠ [])
    (hgood : ∀ p ∈ o, (∀ c ∈ (Prod.fst p).data, goodChar c)
      ∧ ∀ c ∈ (Prod.snd p).data, goodChar c) :
    parseFlat (renderD o).data = some o := by
  have hmem : parseMembers (renderPairsD o ++ '}' :: ([] : List Char)) =
      some (o, []) := by
    unfold parseMembers
    exact parseMembersF_renderD o _ [] h1 hgood
      (le_trans (renderPairsD_length o) (by simp))
  cases o with
  | nil => exact absurd rfl h1
  | cons p rest =>
    obtain ⟨k, v⟩ := p
    obtain ⟨L, hL⟩ := renderPairsD_cons_start k v rest
    show parseFlat ('{' :: (renderPairsD ((k, v) :: rest) ++ ['}'])) =
      some ((k, v) :: rest)
    exact parseFlat_of_members hL hmem

/-- A single-quote head is not whitespace. -/
theorem skipWs_apos (l : List Char) : skipWs ('\'' :: l) = '\'' :: l :=
  skipWs_cons_nws l (by decide)

/-- A single-quoted member list starts with a single quote. -/
theorem renderPairsS_cons_start (k v : String) (rest : List (String × String)) :
    ∃ L, renderPairsS ((k, v) :: rest) = '\'' :: L := by
  cases rest with
  | nil => exact ⟨k.data ++ '\'' :: ':' :: ' ' :: '\'' :: v.data ++ ['\''], rfl⟩
  | cons q r' =>
    exact ⟨(k.data ++ '\'' :: ':' :: ' ' :: '\'' :: v.data ++ ['\''])
        ++ ',' :: ' ' :: renderPairsS (q :: r'),
      by simp [renderPairsS, pairS]⟩

/-- A member parse fails immediately on a single quote, at any fuel. -/
theorem parseMembersF_apos (fuel : Nat) (l : List Char) :
    parseMembersF fuel ('\'' :: l) = none := by
  cases fuel with
  | zero => rfl
  | succ f => rfl

/-- Soundness side: strict parsing rejects the single-quoted rendering. -/
theorem parseFlat_renderS_none (o : List (String × String)) (h1 : o ≠ []) :
    parseFlat (renderS o).data = none := by
  cases o with
  | nil => exact absurd rfl h1
  | cons p rest =>
    obtain ⟨k, v⟩ := p
    obtain ⟨L, hL⟩ := renderPairsS_cons_start k v rest
    show parseFlat ('{' :: (renderPairsS ((k, v) :: rest) ++ [',', '}'])) = none
    rw [hL]
    simp only [parseFlat, skipWs_lbrace, List.cons_append, skipWs_apos]
    simp [parseMembers, parseMembersF_apos]

/-- Character inventory of the canonical rendering: delimiters or good
characters only. -/
theorem renderPairsD_chars :
    ∀ (o : List (String × String)),
      (∀ p ∈ o, (∀ c ∈ (Prod.fst p).data, goodChar c)
        ∧ ∀ c ∈ (Prod.snd p).data, goodChar c) →
      ∀ c ∈ renderPairsD o,
        c = '"' ∨ c = ':' ∨ c = ' ' ∨ c = ',' ∨ goodChar c := by
  intro o
  induction o with
  | nil => intro _ c hc; simp [renderPairsD] at hc
  | cons p rest ih =>
    intro h c hc
    obtain ⟨k, v⟩ := p
    obtain ⟨hk, hv⟩ := h (k, v) (by simp)
    have hkc := fun h' => hk c h'
    have hvc := fun h' => hv c h'
    have hpair : c ∈ pairD k v →
        c = '"' ∨ c = ':' ∨ c = ' ' ∨ c = ',' ∨ goodChar c := by
      intro hcp
      simp only [pairD, List.mem_cons, List.mem_append,
        List.mem_singleton] at hcp
      tauto
    cases rest with
    | nil => exact hpair hc
    | cons q r' =>
      have hih := ih (fun p hp => h p (by simp [hp])) c
      simp only [renderPairsD, List.mem_append, List.mem_cons] at hc
      rcases hc with h' | h' | h' | h'
      · exact hpair h'
      · exact Or.inr (Or.inr (Or.inr (Or.inl h')))
      · exact Or.inr (Or.inr (Or.inl h'))
      · exact hih h'

/-- The canonical member rendering contains no closing brace. -/
theorem rbrace_not_mem (o : List (String × String))
    (hgood : ∀ p ∈ o, (∀ c ∈ (Prod.fst p).data, goodChar c)
      ∧ ∀ c ∈ (Prod.snd p).data, goodChar c) :
    '}' ∉ renderPairsD o := by
  intro hm
  rcases renderPairsD_chars o hgood '}' hm with h | h | h | h | h
  · exact absurd h (by decide)
  · exact absurd h (by decide)
  · exact absurd h (by decide)
  · exact absurd h (by decide)
  · exact h.2.2.2.2.2.2.1 rfl

/-- The canonical member rendering contains no closing bracket. -/
theorem rbracket_not_mem (o : List (String × String))
    (hgood : ∀ p ∈ o, (∀ c ∈ (Prod.fst p).data, goodChar c)
      ∧ ∀ c ∈ (Prod.snd p).data, goodChar c) :
    ']' ∉ renderPairsD o := by
  intro hm
  rcases renderPairsD_chars o hgood ']' hm with h | h | h | h | h
  · exact absurd h (by decide)
  · exact absurd h (by decide)
  · exact absurd h (by decide)
  · exact absurd h (by decide)
  · exact h.2.2.2.2.2.2.2.1 rfl

/-- Quote/newline replacement turns a single-quoted pair into its
well-formed counterpart. -/
theorem map_fixChar_pairS (k v : String)
    (hk : ∀ c ∈ k.data, goodChar c) (hv : ∀ c ∈ v.data, goodChar c) :
    (pairS k v).map fixChar = pairD k v := by
  simp only [pairS, pairD, List.map_cons, List.map_append, List.map_nil]
  rw [mapNoop k.data (fun c hc => fixChar_good (hk c hc)),
    mapNoop v.data (fun c hc => fixChar_good (hv c hc))]
  rfl

/-- Quote/newline replacement turns the single-quoted member rendering into
the well-formed one. -/
theorem map_fixChar_renderPairsS :
    ∀ (o : List (String × String)),
      (∀ p ∈ o, (∀ c ∈ (Prod.fst p).data, goodChar c)
        ∧ ∀ c ∈ (Prod.snd p).data, goodChar c) →
      (renderPairsS o).map fixChar = renderPairsD o := by
  intro o
  induction o with
  | nil => intro _; rfl
  | cons p rest ih =>
    intro h
    obtain ⟨k, v⟩ := p
    obtain ⟨hk, hv⟩ := h (k, v) (by simp)
    cases rest with
    | nil => exact map_fixChar_pairS k v hk hv
    | cons q r' =>
      simp only [renderPairsS, renderPairsD, List.map_append, List.map_cons]
      rw [map_fixChar_pairS k v hk hv, ih (fun p hp => h p (by simp [hp]))]
      rfl

/-- The cleanup pipeline turns the malformed rendering into the canonical
one, character for character. -/
theorem cleanReply_renderS (o : List (String × String))
    (hgood : ∀ p ∈ o, (∀ c ∈ (Prod.fst p).data, goodChar c)
      ∧ ∀ c ∈ (Prod.snd p).data, goodChar c) :
    cleanReply (renderS o).data = (renderD o).data := by
  show subCC ']' (subCC '}' (('{' :: renderPairsS o ++ [',', '}']).map fixChar))
    = '{' :: renderPairsD o ++ ['}']
  have hmap : ('{' :: renderPairsS o ++ [',', '}']).map fixChar
      = ('{' :: renderPairsD o) ++ [',', '}'] := by
    simp only [List.map_cons, List.map_append, List.map_nil]
    rw [map_fixChar_renderPairsS o hgood]
    rfl
  rw [hmap]
  have hnr : '}' ∉ ('{' :: renderPairsD o) := by
    intro hm
    rcases List.mem_cons.mp hm with h | h
    · exact absurd h (by decide)
    · exact rbrace_not_mem o hgood h
  have h1 : subCC '}' (('{' :: renderPairsD o) ++ [',', '}'])
      = ('{' :: renderPairsD o) ++ ['}'] :=
    (subCCAux_final '}' (by decide) ('{' :: renderPairsD o) hnr).1
  rw [h1]
  have hnb : ']' ∉ ('{' :: renderPairsD o) ++ ['}'] := by
    intro hm
    rcases List.mem_append.mp hm with h | h
    · rcases List.mem_cons.mp h with h | h
      · exact absurd h (by decide)
      · exact rbracket_not_mem o hgood h
    · simp at h
  have h2 := (subCCAux_no_close ']' (('{' :: renderPairsD o) ++ ['}']) hnb).1
  rw [subCC, h2]

/-- C9 (counterexample): for the object `\x7b"a": "it's"\x7d`, whose value
contains an apostrophe, the single-quoted reply `\x7b'a': 'it's',\x7d` is
"repaired" into `\x7b"a": "it"s"\x7d`, which still fails to parse, so
`_repair_json` returns the empty dict — not the object that strict parsing
of the well-formed rendering produces.  The claim's quantification over
*every* JSON object value therefore fails. -/
theorem claim9_counterexample :
    repairJson (renderS [("a", "it's")]) = []
    ∧ parseFlat (renderD [("a", "it's")]).data = some [("a", "it's")]
    ∧ ([] : List (String × String)) ≠ [("a", "it's")] := by
  refine ⟨by rfl, by rfl, by decide⟩

/-- C9 (amended): for every *non-empty* flat JSON object whose keys and
values avoid the repair pipeline's special characters (quotes, backslash,
closing brace and bracket) and contain no control character below U+0020
(which strict `json.loads` rejects raw inside a string), a reply rendering
the object with single quotes and a trailing comma before the closing
brace is repaired by `_repair_json` to exactly the object that strict
parsing of the well-formed rendering yields. -/
theorem claim9_amended (o : List (String × String)) (h1 : o ≠ [])
    (h2 : ∀ p ∈ o, (∀ c ∈ (Prod.fst p).data, goodChar c)
      ∧ ∀ c ∈ (Prod.snd p).data, goodChar c) :
    repairJson (renderS o) = o ∧ parseFlat (renderD o).data = some o := by
  have hA := parseFlat_renderS_none o h1
  have hB := cleanReply_renderS o h2
  have hC := parseFlat_renderD o h1 h2
  refine ⟨?_, hC⟩
  simp only [repairJson, hA, hB, hC]

/-- Witness for C9 (amended) at the object `\x7b"summary": "ok"\x7d`. -/
theorem claim9_amended_witness :
    ([("summary", "ok")] : List (String × String)) ≠ []
    ∧ repairJson (renderS [("summary", "ok")]) = [("summary", "ok")]
    ∧ parseFlat (renderD [("summary", "ok")]).data = some [("summary", "ok")] :=
  ⟨by decide,
    (claim9_amended [("summary", "ok")] (by decide) (by decide)).1,
    (claim9_amended [("summary", "ok")] (by decide) (by decide)).2⟩

end TicketTriage
